import Mathlib

/-!
# Time-proportioning relay controller: formal model and verification

This file embeds the time-proportioning driver of
`src/sonoff/xdrv_91_timeprop.ino` together with the per-output
`Timeprop` controller it drives.  The controller class itself
(`Timeprop.h` / `Timeprop.cpp`) is referenced by the driver but not part
of the source tree, so its operations are modelled from the
specification (§3, §4.1 of the design document); the driver functions
(`Timeprop_Set_Power`, `Timeprop_Init`, `Timeprop_Every_Second`,
`Timeprop_Command`, `Timeprop_Xdrv_Power`) are translated from the
source.  Powers are rationals (the C code uses `float`), times are
natural-number second counters.
-/

namespace Timeprop

/-- Modelled from the spec (§4.1 `setPower`): power values outside
`[0,1]` are clamped on input. -/
def clampPower (p : ℚ) : ℚ := if p < 0 then 0 else if 1 < p then 1 else p

/-- Modelled from the spec (§3 data model): configuration plus mutable
state of one `Timeprop` controller instance (the `Timeprop` class is not
in the source tree; only its callers are). -/
structure State where
  cycleTime : ℕ
  deadTime : ℕ
  opInverted : Bool
  fallbackPower : ℚ
  maxUpdateInterval : ℕ
  requestedPower : ℚ
  lastPowerUpdateTime : ℕ
  cycleStartTime : ℕ
  onTimeThisCycle : ℕ
  currentOutputState : Bool
deriving Repr, DecidableEq

/-- Modelled from the spec (§4.1 `initialise`): sets the configuration,
`requestedPower = fallbackPower`, `lastPowerUpdateTime = now`,
`cycleStartTime = now`, `currentOutputState = false`. -/
def initialise (cycleTime deadTime : ℕ) (opInverted : Bool) (fallbackPower : ℚ)
    (maxUpdateInterval : ℕ) (now : ℕ) : State :=
  { cycleTime := cycleTime
    deadTime := deadTime
    opInverted := opInverted
    fallbackPower := fallbackPower
    maxUpdateInterval := maxUpdateInterval
    requestedPower := fallbackPower
    lastPowerUpdateTime := now
    cycleStartTime := now
    onTimeThisCycle := 0
    currentOutputState := false }

/-- Modelled from the spec (§4.1 `setPower`): clamps the power, stores
it and the update time; the on-time recomputation is deferred to the
next cycle boundary inside `tick`. -/
def setPower (s : State) (power : ℚ) (now : ℕ) : State :=
  { s with requestedPower := clampPower power, lastPowerUpdateTime := now }

/-- Modelled from the spec (§3 `isStale`):
`maxUpdateIntervalSeconds > 0 AND (now - lastPowerUpdateTime) > maxUpdateIntervalSeconds`. -/
def isStale (s : State) (now : ℕ) : Bool :=
  decide (0 < s.maxUpdateInterval) && decide (s.maxUpdateInterval < now - s.lastPowerUpdateTime)

/-- Modelled from the spec (§4.1 `tick` step 1): the stale-input
fallback substitution. -/
def effectivePower (s : State) (now : ℕ) : ℚ :=
  if isStale s now then s.fallbackPower else s.requestedPower

/-- Modelled from the spec (§4.1 `tick` steps 2 and 4): the on-time for
a cycle is `round(effectivePower * cycleTime)`, with the dead-time guard
applied: an on-segment shorter than `deadTime` is suppressed to `0`, and
symmetrically an off-segment shorter than `deadTime` is suppressed by
saturating the on-time to the full cycle. -/
def computeOnTime (deadTime cycleTime : ℕ) (p : ℚ) : ℕ :=
  let raw := (round (p * (cycleTime : ℚ))).toNat
  if raw < deadTime then 0
  else if cycleTime - deadTime < raw then cycleTime
  else raw

/-- Modelled from the spec (§4.1 `tick`): at a cycle boundary advance
`cycleStartTime` by exactly one cycle length (the drift-free policy the
spec mandates) and recompute the on-time from the effective power; the
output is on while the elapsed time within the cycle is below the
on-time, XORed with the inversion flag, and is stored in
`currentOutputState`. -/
def tick (s : State) (now : ℕ) : State × Bool :=
  let s1 :=
    if s.cycleStartTime + s.cycleTime ≤ now then
      { s with cycleStartTime := s.cycleStartTime + s.cycleTime
               onTimeThisCycle := computeOnTime s.deadTime s.cycleTime (effectivePower s now) }
    else s
  let desired : Bool := decide (now - s1.cycleStartTime < s1.onTimeThisCycle)
  let out : Bool := Bool.xor desired s1.opInverted
  ({ s1 with currentOutputState := out }, out)

/-- One second of controller life: deliver the pending `setPower` call
(if any), then run the once-per-second `tick`. -/
def secondStep (pow : ℕ → Option ℚ) (s : State) (n : ℕ) : State × Bool :=
  let s2 := match pow n with
    | none => s
    | some p => setPower s p n
  tick s2 n

/-- The controller state after the tick of second `n` (state `s0` at
second `0`, before any tick). -/
def stateAt (s0 : State) (pow : ℕ → Option ℚ) : ℕ → State
  | 0 => s0
  | n + 1 => (secondStep pow (stateAt s0 pow n) (n + 1)).1

/-- The output emitted by the tick of second `t + 1`; `emitted s0 pow`
is the boolean sequence emitted by successive tick calls. -/
def emitted (s0 : State) (pow : ℕ → Option ℚ) (t : ℕ) : Bool :=
  (stateAt s0 pow (t + 1)).currentOutputState

/-- `t` starts a maximal run in the sequence `e`: it is the first
position, or the value changes at `t`. -/
def runStart (e : ℕ → Bool) (t : ℕ) : Prop :=
  t = 0 ∨ e (t - 1) ≠ e t

instance (e : ℕ → Bool) (t : ℕ) : Decidable (runStart e t) := by
  unfold runStart; infer_instance

/-- The state seen by the tick of second `n`: the pending `setPower`
call (if any) has been applied to the state left by second `n - 1`. -/
def atSecond (s0 : State) (pow : ℕ → Option ℚ) (n : ℕ) : State :=
  match pow n with
  | none => stateAt s0 pow (n - 1)
  | some p => setPower (stateAt s0 pow (n - 1)) p n

/-- The values the dead-time guard allows as a cycle's on-time:
all off, all on, or an on-segment of at least `d` ticks leaving an
off-segment of at least `d` ticks. -/
def OnTimeOK (d c T : ℕ) : Prop := T = 0 ∨ T = c ∨ (d ≤ T ∧ T + d ≤ c)

/-- Two controller states with identical configuration fields. -/
def sameConfig (s t : State) : Prop :=
  s.cycleTime = t.cycleTime ∧ s.deadTime = t.deadTime ∧ s.opInverted = t.opInverted ∧
    s.fallbackPower = t.fallbackPower ∧ s.maxUpdateInterval = t.maxUpdateInterval

/-- The cycle start in force after the tick of second `n`. -/
def cycleStartAt (s0 : State) (pow : ℕ → Option ℚ) (n : ℕ) : ℕ :=
  (stateAt s0 pow n).cycleStartTime

/-- The on-time in force after the tick of second `n`. -/
def onTimeAt (s0 : State) (pow : ℕ → Option ℚ) (n : ℕ) : ℕ :=
  (stateAt s0 pow n).onTimeThisCycle

/-- The pre-inversion on/off decision of the tick of second `n`. -/
def preOut (s0 : State) (pow : ℕ → Option ℚ) (n : ℕ) : Bool :=
  decide (n - cycleStartAt s0 pow n < onTimeAt s0 pow n)

/-- All controller fields except the inversion flag and the stored
output bit, as a tuple. -/
def State.core (s : State) : ℕ × ℕ × ℚ × ℕ × ℚ × ℕ × ℕ × ℕ :=
  (s.cycleTime, s.deadTime, s.fallbackPower, s.maxUpdateInterval,
    s.requestedPower, s.lastPowerUpdateTime, s.cycleStartTime, s.onTimeThisCycle)

end Timeprop

namespace Driver

open Timeprop

/-- C truncation of a float to `int` (toward zero), as happens when
`Timeprop_Init` loads a configured value into its local `int` arrays. -/
def truncToInt (q : ℚ) : ℤ := if 0 ≤ q then ⌊q⌋ else ⌈q⌉

/-- Per-output build-time configuration (`TIMEPROP_CYCLETIMES`,
`TIMEPROP_DEADTIMES`, `TIMEPROP_OPINVERTS`, `TIMEPROP_FALLBACK_POWERS`,
`TIMEPROP_MAX_UPDATE_INTERVALS`, `TIMEPROP_RELAYS`).  The configured
fallback powers are rationals: power values are floats in `[0,1]`. -/
structure Config (N : ℕ) where
  cycleTimes : Fin N → ℕ
  deadTimes : Fin N → ℕ
  opInverts : Fin N → Bool
  fallbackPowers : Fin N → ℚ
  maxIntervals : Fin N → ℕ
  relayNos : Fin N → ℕ

/-- The driver's global state (`xdrv_91_timeprop.ino` lines 91-95):
the `timeprops` array, `currentRelayStates` (bit `r-1` holds relay
`r`'s state as last reported back by the system) and
`timeprop_current_time_secs`, plus the observable outputs: `mqtt_data`
(the last acknowledgement written by `Timeprop_Command`, as the
index/payload pair it echoes) and the ordered log of
`ExecuteCommandPower` calls issued so far. -/
structure DriverState (N : ℕ) where
  timeprops : Fin N → Timeprop.State
  currentRelayStates : ℕ → Bool
  timeprop_current_time_secs : ℕ
  mqtt_data : Option (ℕ × ℚ)
  commandLog : List (ℕ × Bool)

/-- Models `Timeprop_Set_Power` (lines 99-105): bounds-checks the
(signed) index, silently no-ops when it is out of range, otherwise
forwards to `setPower` with the current time. -/
def Timeprop_Set_Power {N : ℕ} (ds : DriverState N) (index : ℤ) (power : ℚ) :
    DriverState N :=
  if h : 0 ≤ index ∧ index < N then
    let i : Fin N := ⟨index.toNat, by omega⟩
    { ds with timeprops := Function.update ds.timeprops i (setPower (ds.timeprops i) power ds.timeprop_current_time_secs) }
  else ds

/-- Models `Timeprop_Init` (lines 107-121): the configuration macros
are loaded into local `int` arrays — truncating the configured fallback
powers to integers — and every controller is initialised with the
current value of the global seconds counter. -/
def Timeprop_Init {N : ℕ} (cfg : Config N) (ds : DriverState N) : DriverState N :=
  { ds with timeprops := fun i =>
      initialise (cfg.cycleTimes i) (cfg.deadTimes i) (cfg.opInverts i) ((truncToInt (cfg.fallbackPowers i) : ℤ) : ℚ) (cfg.maxIntervals i) ds.timeprop_current_time_secs }

/-- Models `ExecuteCommandPower relay state SRC_IGNORE` together with
the system feedback path described in the source comments: the system
switches the relay and reports the bit-packed relay-state word through
`FUNC_SET_POWER`, which `Timeprop_Xdrv_Power` (lines 135-140) stores
into `currentRelayStates`; bit `relay - 1` now holds `state`.  The
issued command is appended to the observable command log. -/
def ExecuteCommandPower {N : ℕ} (ds : DriverState N) (relay : ℕ) (state : Bool) :
    DriverState N :=
  { ds with
    currentRelayStates := fun b => if b = relay - 1 then state else ds.currentRelayStates b
    commandLog := ds.commandLog ++ [(relay, state)] }

/-- One iteration of the loop in `Timeprop_Every_Second` (lines
125-131): tick controller `i` with the (already incremented) seconds
counter, and issue a power command exactly when the new state differs
from `bitRead(currentRelayStates, relayNos[i]-1)`. -/
def everySecondStep {N : ℕ} (cfg : Config N) (ds : DriverState N) (i : Fin N) :
    DriverState N :=
  let r := tick (ds.timeprops i) ds.timeprop_current_time_secs
  let ds1 := { ds with timeprops := Function.update ds.timeprops i r.1 }
  if r.2 ≠ ds1.currentRelayStates (cfg.relayNos i - 1) then
    ExecuteCommandPower ds1 (cfg.relayNos i) r.2
  else ds1

/-- Models `Timeprop_Every_Second` (lines 123-132): increment the
global seconds counter, then run the loop over all controllers in
ascending index order. -/
def Timeprop_Every_Second {N : ℕ} (cfg : Config N) (ds : DriverState N) :
    DriverState N :=
  (List.finRange N).foldl (everySecondStep cfg)
    { ds with timeprop_current_time_secs := ds.timeprop_current_time_secs + 1 }

/-- Models the `CMND_TIMEPROP_SETPOWER` branch of `Timeprop_Command`
(lines 171-187), after topic matching and `atof` payload parsing: the
`setPower` call is bounds-checked on the (unsigned) mailbox index, but
the acknowledgement into `mqtt_data`, echoing the index and the
payload, is written unconditionally. -/
def Timeprop_Command {N : ℕ} (ds : DriverState N) (index : ℕ) (payload : ℚ) :
    DriverState N :=
  let ds1 :=
    if h : index < N then
      { ds with timeprops := Function.update ds.timeprops ⟨index, h⟩ (setPower (ds.timeprops ⟨index, h⟩) payload ds.timeprop_current_time_secs) }
    else ds
  { ds1 with mqtt_data := some (index, payload) }

/-- The events the Tasmota core delivers to `Xdrv91` after
`FUNC_INIT`: the once-per-second callback, an MQTT set-power command,
or a direct `Timeprop_Set_Power` call from elsewhere. -/
inductive Event
  | everySecond
  | command (index : ℕ) (payload : ℚ)
  | setPowerCall (index : ℤ) (power : ℚ)

/-- Whether an event is the once-per-second callback. -/
def Event.isTick : Event → Bool
  | Event.everySecond => true
  | _ => false

/-- Dispatch of one event, mirroring the `switch` in `Xdrv91`
(lines 203-223). -/
def applyEvent {N : ℕ} (cfg : Config N) (ds : DriverState N) : Event → DriverState N
  | Event.everySecond => Timeprop_Every_Second cfg ds
  | Event.command i q => Timeprop_Command ds i q
  | Event.setPowerCall i q => Timeprop_Set_Power ds i q

/-- Power-on state: the static variables are zero-initialised
(lines 91-95); the controllers' pre-`initialise` contents are never
observed because every run applies `Timeprop_Init` first. -/
def initialState (N : ℕ) : DriverState N :=
  { timeprops := fun _ => initialise 0 0 false 0 0 0
    currentRelayStates := fun _ => false
    timeprop_current_time_secs := 0
    mqtt_data := none
    commandLog := [] }

/-- A run of the driver: `FUNC_INIT` at boot, then the event list in
order. -/
def driverRun {N : ℕ} (cfg : Config N) (es : List Event) : DriverState N :=
  es.foldl (applyEvent cfg) (Timeprop_Init cfg (initialState N))

/-- The state last commanded for relay `r` in a command log (`false`,
i.e. off, before any command). -/
def lastEmitted (log : List (ℕ × Bool)) (r : ℕ) : Bool :=
  (log.filter (fun e => e.1 == r)).foldl (fun _ e => e.2) false

/-- The driver invariant tying `currentRelayStates` to the command
history: for each output, the relay bit the comparison in
`Timeprop_Every_Second` reads equals the state last commanded for that
relay (off before any command). -/
def RelayInv {N : ℕ} (cfg : Config N) (ds : DriverState N) : Prop :=
  ∀ i : Fin N, ds.currentRelayStates (cfg.relayNos i - 1)
    = lastEmitted ds.commandLog (cfg.relayNos i)

/-- All requested powers of the bank lie in `[0,1]`. -/
def ReqInRange {N : ℕ} (ds : DriverState N) : Prop :=
  ∀ i, 0 ≤ (ds.timeprops i).requestedPower ∧ (ds.timeprops i).requestedPower ≤ 1

/-- A one-output example configuration: cycle 10 s, dead time 0, no
inversion, configured fallback power 0.5, watchdog 120 s, relay 1. -/
def exampleConfig : Config 1 :=
  { cycleTimes := fun _ => 10
    deadTimes := fun _ => 0
    opInverts := fun _ => false
    fallbackPowers := fun _ => 1 / 2
    maxIntervals := fun _ => 120
    relayNos := fun _ => 1 }

end Driver

/-- A concrete power schedule: a single `setPower 1` delivered at
second 3. -/
def powC2 : ℕ → Option ℚ := fun n => if n = 3 then some (1 : ℚ) else none

namespace Timeprop

theorem clampPower_nonneg (p : ℚ) : 0 ≤ clampPower p := by
  unfold clampPower
  split
  next => exact le_refl 0
  next h =>
    split
    next => exact zero_le_one
    next => exact le_of_not_lt h

theorem clampPower_le_one (p : ℚ) : clampPower p ≤ 1 := by
  unfold clampPower
  split
  next => exact zero_le_one
  next =>
    split
    next => exact le_refl 1
    next h => exact le_of_not_lt h

theorem clampPower_eq_self {p : ℚ} (h0 : 0 ≤ p) (h1 : p ≤ 1) : clampPower p = p := by
  unfold clampPower
  rw [if_neg (not_lt.mpr h0), if_neg (not_lt.mpr h1)]

theorem round_mul_nonneg (c : ℕ) {p : ℚ} (hp : 0 ≤ p) : 0 ≤ round (p * (c : ℚ)) := by
  rw [round_eq]
  have h : (0 : ℚ) ≤ p * (c : ℚ) + 1 / 2 := by positivity
  exact Int.floor_nonneg.mpr h

theorem round_mul_le (c : ℕ) {p : ℚ} (hp : p ≤ 1) : round (p * (c : ℚ)) ≤ (c : ℤ) := by
  rw [round_eq]
  have h1 : p * (c : ℚ) + 1 / 2 ≤ (c : ℚ) + 1 / 2 := by
    have h2 : p * (c : ℚ) ≤ 1 * (c : ℚ) := mul_le_mul_of_nonneg_right hp (Nat.cast_nonneg c)
    linarith
  have h3 : ⌊(c : ℚ) + 1 / 2⌋ = (c : ℤ) + ⌊(1 : ℚ) / 2⌋ := by
    rw [Int.floor_nat_add]
  have h4 : ⌊(1 : ℚ) / 2⌋ = 0 := by norm_num [Int.floor_eq_zero_iff, Set.mem_Ico]
  calc ⌊p * (c : ℚ) + 1 / 2⌋ ≤ ⌊(c : ℚ) + 1 / 2⌋ := Int.floor_le_floor h1
    _ = (c : ℤ) := by rw [h3, h4, add_zero]

theorem round_toNat_le (c : ℕ) {p : ℚ} (hp : p ≤ 1) : (round (p * (c : ℚ))).toNat ≤ c :=
  Int.toNat_le.mpr (round_mul_le c hp)

theorem computeOnTime_le_cycle (d c : ℕ) (p : ℚ) : computeOnTime d c p ≤ c := by
  unfold computeOnTime
  dsimp only
  split
  next => exact Nat.zero_le c
  next =>
    split
    next => exact le_refl c
    next h => omega

theorem computeOnTime_zero (d c : ℕ) : computeOnTime d c 0 = 0 := by
  unfold computeOnTime
  have h : round ((0 : ℚ) * (c : ℚ)) = 0 := by rw [zero_mul, round_zero]
  dsimp only
  rw [h]
  simp only [Int.toNat_zero]
  split
  next => rfl
  next h2 =>
    rw [if_neg]
    omega

theorem computeOnTime_one {d c : ℕ} (hdc : d ≤ c) : computeOnTime d c 1 = c := by
  unfold computeOnTime
  have h : round ((1 : ℚ) * (c : ℚ)) = (c : ℤ) := by rw [one_mul, round_natCast]
  dsimp only
  rw [h, Int.toNat_natCast]
  rcases Nat.eq_zero_or_pos d with hd | hd
  · subst hd
    rw [if_neg (by omega), if_neg (by omega)]
  · rw [if_neg (by omega), if_pos (by omega)]

theorem computeOnTime_ok {d c : ℕ} (hdc : d ≤ c) {p : ℚ} (hp1 : p ≤ 1) :
    OnTimeOK d c (computeOnTime d c p) := by
  have hraw : (round (p * (c : ℚ))).toNat ≤ c := round_toNat_le c hp1
  unfold computeOnTime OnTimeOK
  dsimp only
  split
  next => exact Or.inl rfl
  next h =>
    split
    next => exact Or.inr (Or.inl rfl)
    next h2 => exact Or.inr (Or.inr (by omega))

theorem computeOnTime_deadTime_zero {c : ℕ} {p : ℚ} (hp1 : p ≤ 1) :
    computeOnTime 0 c p = (round (p * (c : ℚ))).toNat := by
  have hraw : (round (p * (c : ℚ))).toNat ≤ c := round_toNat_le c hp1
  unfold computeOnTime
  dsimp only
  rw [if_neg (by omega), if_neg (by omega)]

theorem tick_cycleTime (s : State) (now : ℕ) : ((tick s now).1).cycleTime = s.cycleTime := by
  unfold tick
  dsimp only
  split <;> rfl

theorem tick_deadTime (s : State) (now : ℕ) : ((tick s now).1).deadTime = s.deadTime := by
  unfold tick
  dsimp only
  split <;> rfl

theorem tick_opInverted (s : State) (now : ℕ) : ((tick s now).1).opInverted = s.opInverted := by
  unfold tick
  dsimp only
  split <;> rfl

theorem tick_fallbackPower (s : State) (now : ℕ) :
    ((tick s now).1).fallbackPower = s.fallbackPower := by
  unfold tick
  dsimp only
  split <;> rfl

theorem tick_maxUpdateInterval (s : State) (now : ℕ) :
    ((tick s now).1).maxUpdateInterval = s.maxUpdateInterval := by
  unfold tick
  dsimp only
  split <;> rfl

theorem tick_requestedPower (s : State) (now : ℕ) :
    ((tick s now).1).requestedPower = s.requestedPower := by
  unfold tick
  dsimp only
  split <;> rfl

theorem tick_lastPowerUpdateTime (s : State) (now : ℕ) :
    ((tick s now).1).lastPowerUpdateTime = s.lastPowerUpdateTime := by
  unfold tick
  dsimp only
  split <;> rfl

theorem tick_cycleStartTime_of_boundary {s : State} {now : ℕ}
    (h : s.cycleStartTime + s.cycleTime ≤ now) :
    ((tick s now).1).cycleStartTime = s.cycleStartTime + s.cycleTime := by
  unfold tick
  dsimp only
  rw [if_pos h]

theorem tick_cycleStartTime_of_not_boundary {s : State} {now : ℕ}
    (h : ¬s.cycleStartTime + s.cycleTime ≤ now) :
    ((tick s now).1).cycleStartTime = s.cycleStartTime := by
  unfold tick
  dsimp only
  rw [if_neg h]

theorem tick_onTime_of_boundary {s : State} {now : ℕ}
    (h : s.cycleStartTime + s.cycleTime ≤ now) :
    ((tick s now).1).onTimeThisCycle
      = computeOnTime s.deadTime s.cycleTime (effectivePower s now) := by
  unfold tick
  dsimp only
  rw [if_pos h]

theorem tick_onTime_of_not_boundary {s : State} {now : ℕ}
    (h : ¬s.cycleStartTime + s.cycleTime ≤ now) :
    ((tick s now).1).onTimeThisCycle = s.onTimeThisCycle := by
  unfold tick
  dsimp only
  rw [if_neg h]

theorem tick_out (s : State) (now : ℕ) :
    (tick s now).2
      = Bool.xor
          (decide (now - ((tick s now).1).cycleStartTime < ((tick s now).1).onTimeThisCycle))
          s.opInverted := by
  unfold tick
  dsimp only
  split <;> rfl

theorem tick_currentOutputState (s : State) (now : ℕ) :
    ((tick s now).1).currentOutputState = (tick s now).2 := by
  unfold tick
  dsimp only

theorem sameConfig_refl (s : State) : sameConfig s s := ⟨rfl, rfl, rfl, rfl, rfl⟩

theorem sameConfig_trans {s t u : State} (h1 : sameConfig s t) (h2 : sameConfig t u) :
    sameConfig s u := by
  obtain ⟨a1, a2, a3, a4, a5⟩ := h1
  obtain ⟨b1, b2, b3, b4, b5⟩ := h2
  exact ⟨a1.trans b1, a2.trans b2, a3.trans b3, a4.trans b4, a5.trans b5⟩

theorem sameConfig_setPower (s : State) (p : ℚ) (now : ℕ) :
    sameConfig (setPower s p now) s := ⟨rfl, rfl, rfl, rfl, rfl⟩

theorem sameConfig_tick (s : State) (now : ℕ) : sameConfig ((tick s now).1) s :=
  ⟨tick_cycleTime s now, tick_deadTime s now, tick_opInverted s now,
    tick_fallbackPower s now, tick_maxUpdateInterval s now⟩

theorem stateAt_succ (s0 : State) (pow : ℕ → Option ℚ) (n : ℕ) :
    stateAt s0 pow (n + 1) = (tick (atSecond s0 pow (n + 1)) (n + 1)).1 := by
  show (secondStep pow (stateAt s0 pow n) (n + 1)).1 = _
  unfold secondStep atSecond
  cases pow (n + 1) <;> rfl

theorem atSecond_sameConfig (s0 : State) (pow : ℕ → Option ℚ) (n : ℕ) :
    sameConfig (atSecond s0 pow n) (stateAt s0 pow (n - 1)) := by
  unfold atSecond
  cases pow n
  · exact sameConfig_refl _
  · exact sameConfig_setPower _ _ _

theorem stateAt_sameConfig (s0 : State) (pow : ℕ → Option ℚ) (n : ℕ) :
    sameConfig (stateAt s0 pow n) s0 := by
  induction n with
  | zero => exact sameConfig_refl s0
  | succ n ih =>
    rw [stateAt_succ]
    exact sameConfig_trans (sameConfig_tick _ _)
      (sameConfig_trans (atSecond_sameConfig s0 pow (n + 1)) ih)

theorem atSecond_cycleStartTime (s0 : State) (pow : ℕ → Option ℚ) (n : ℕ) :
    (atSecond s0 pow n).cycleStartTime = (stateAt s0 pow (n - 1)).cycleStartTime := by
  unfold atSecond
  cases pow n <;> rfl

theorem atSecond_onTime (s0 : State) (pow : ℕ → Option ℚ) (n : ℕ) :
    (atSecond s0 pow n).onTimeThisCycle = (stateAt s0 pow (n - 1)).onTimeThisCycle := by
  unfold atSecond
  cases pow n <;> rfl

/-- Two natural numbers that are multiples of `c` and lie in the same
half-open window of length `c` are equal. -/
theorem eq_of_dvd_window {c a b n : ℕ} (ha : c ∣ a) (hb : c ∣ b)
    (h1 : a ≤ n) (h2 : n < a + c) (h3 : b ≤ n) (h4 : n < b + c) : a = b := by
  obtain ⟨qa, rfl⟩ := ha
  obtain ⟨qb, rfl⟩ := hb
  rcases Nat.lt_trichotomy qa qb with h | h | h
  · exfalso
    have hm : c * qa + c ≤ c * qb := by
      calc c * qa + c = c * (qa + 1) := by ring
        _ ≤ c * qb := Nat.mul_le_mul_left c h
    omega
  · rw [h]
  · exfalso
    have hm : c * qb + c ≤ c * qa := by
      calc c * qb + c = c * (qb + 1) := by ring
        _ ≤ c * qa := Nat.mul_le_mul_left c h
    omega

/-- Cycle-window invariant: the cycle start is a multiple of the cycle
length lying at most one cycle behind the clock.  This pins the cycle
start of each tick without any division. -/
theorem stateAt_cycleStart_window (s0 : State) (pow : ℕ → Option ℚ)
    (hc : 0 < s0.cycleTime) (h0 : s0.cycleStartTime = 0) (n : ℕ) :
    (stateAt s0 pow n).cycleStartTime ≤ n ∧
      n < (stateAt s0 pow n).cycleStartTime + s0.cycleTime ∧
      s0.cycleTime ∣ (stateAt s0 pow n).cycleStartTime := by
  induction n with
  | zero =>
    have e : stateAt s0 pow 0 = s0 := rfl
    rw [e, h0]
    exact ⟨Nat.le_refl 0, by omega, dvd_zero _⟩
  | succ n ih =>
    obtain ⟨h1, h2, h3⟩ := ih
    have hafc : (atSecond s0 pow (n + 1)).cycleTime = s0.cycleTime := by
      have ha := (atSecond_sameConfig s0 pow (n + 1)).1
      have hs := (stateAt_sameConfig s0 pow n).1
      simpa using ha.trans hs
    have hacs : (atSecond s0 pow (n + 1)).cycleStartTime
        = (stateAt s0 pow n).cycleStartTime := by
      simpa using atSecond_cycleStartTime s0 pow (n + 1)
    rw [stateAt_succ]
    by_cases hb : (atSecond s0 pow (n + 1)).cycleStartTime
        + (atSecond s0 pow (n + 1)).cycleTime ≤ n + 1
    · rw [tick_cycleStartTime_of_boundary hb, hacs, hafc]
      rw [hacs, hafc] at hb
      refine ⟨by omega, by omega, ?_⟩
      exact Nat.dvd_add h3 dvd_rfl
    · rw [tick_cycleStartTime_of_not_boundary hb, hacs]
      rw [hacs, hafc] at hb
      exact ⟨by omega, by omega, h3⟩

theorem atSecond_cycleTime (s0 : State) (pow : ℕ → Option ℚ) (n : ℕ) :
    (atSecond s0 pow n).cycleTime = s0.cycleTime :=
  (sameConfig_trans (atSecond_sameConfig s0 pow n) (stateAt_sameConfig s0 pow (n - 1))).1

theorem atSecond_deadTime (s0 : State) (pow : ℕ → Option ℚ) (n : ℕ) :
    (atSecond s0 pow n).deadTime = s0.deadTime :=
  (sameConfig_trans (atSecond_sameConfig s0 pow n) (stateAt_sameConfig s0 pow (n - 1))).2.1

theorem atSecond_opInverted (s0 : State) (pow : ℕ → Option ℚ) (n : ℕ) :
    (atSecond s0 pow n).opInverted = s0.opInverted :=
  (sameConfig_trans (atSecond_sameConfig s0 pow n) (stateAt_sameConfig s0 pow (n - 1))).2.2.1

theorem atSecond_fallbackPower (s0 : State) (pow : ℕ → Option ℚ) (n : ℕ) :
    (atSecond s0 pow n).fallbackPower = s0.fallbackPower :=
  (sameConfig_trans (atSecond_sameConfig s0 pow n) (stateAt_sameConfig s0 pow (n - 1))).2.2.2.1

/-- The tick of second `n + 1` starts a new cycle exactly when the
running cycle (of the state it sees) is exhausted. -/
theorem step_boundary (s0 : State) (pow : ℕ → Option ℚ)
    (hc : 0 < s0.cycleTime) (h0 : s0.cycleStartTime = 0) (n : ℕ)
    (hb : n + 1 = cycleStartAt s0 pow n + s0.cycleTime) :
    cycleStartAt s0 pow (n + 1) = n + 1 ∧
      onTimeAt s0 pow (n + 1)
        = computeOnTime s0.deadTime s0.cycleTime
            (effectivePower (atSecond s0 pow (n + 1)) (n + 1)) := by
  have hacs : (atSecond s0 pow (n + 1)).cycleStartTime = cycleStartAt s0 pow n := by
    simpa using atSecond_cycleStartTime s0 pow (n + 1)
  have hb' : (atSecond s0 pow (n + 1)).cycleStartTime + (atSecond s0 pow (n + 1)).cycleTime
      ≤ n + 1 := by
    rw [hacs, atSecond_cycleTime]
    omega
  constructor
  · unfold cycleStartAt
    rw [stateAt_succ, tick_cycleStartTime_of_boundary hb', hacs, atSecond_cycleTime]
    omega
  · unfold onTimeAt
    rw [stateAt_succ, tick_onTime_of_boundary hb', atSecond_deadTime, atSecond_cycleTime]

theorem step_not_boundary (s0 : State) (pow : ℕ → Option ℚ)
    (hc : 0 < s0.cycleTime) (h0 : s0.cycleStartTime = 0) (n : ℕ)
    (hb : n + 1 ≠ cycleStartAt s0 pow n + s0.cycleTime) :
    cycleStartAt s0 pow (n + 1) = cycleStartAt s0 pow n ∧
      onTimeAt s0 pow (n + 1) = onTimeAt s0 pow n := by
  have hwin := stateAt_cycleStart_window s0 pow hc h0 n
  have hacs : (atSecond s0 pow (n + 1)).cycleStartTime = cycleStartAt s0 pow n := by
    simpa using atSecond_cycleStartTime s0 pow (n + 1)
  have hb' : ¬((atSecond s0 pow (n + 1)).cycleStartTime + (atSecond s0 pow (n + 1)).cycleTime
      ≤ n + 1) := by
    rw [hacs, atSecond_cycleTime]
    unfold cycleStartAt at *
    omega
  have haon : (atSecond s0 pow (n + 1)).onTimeThisCycle = onTimeAt s0 pow n := by
    simpa using atSecond_onTime s0 pow (n + 1)
  constructor
  · show (stateAt s0 pow (n + 1)).cycleStartTime = _
    rw [stateAt_succ, tick_cycleStartTime_of_not_boundary hb', hacs]
  · show (stateAt s0 pow (n + 1)).onTimeThisCycle = _
    rw [stateAt_succ, tick_onTime_of_not_boundary hb', haon]

/-- Within one cycle nothing changes: as long as the elapsed time stays
below the cycle length, the cycle start and the on-time are frozen. -/
theorem window_const (s0 : State) (pow : ℕ → Option ℚ)
    (hc : 0 < s0.cycleTime) (h0 : s0.cycleStartTime = 0) (m : ℕ) :
    ∀ j, (m - cycleStartAt s0 pow m) + j < s0.cycleTime →
      cycleStartAt s0 pow (m + j) = cycleStartAt s0 pow m ∧
        onTimeAt s0 pow (m + j) = onTimeAt s0 pow m := by
  intro j
  induction j with
  | zero => exact fun _ => ⟨rfl, rfl⟩
  | succ j ih =>
    intro hj
    obtain ⟨ihc, iho⟩ := ih (by omega)
    have hwin := stateAt_cycleStart_window s0 pow hc h0 m
    have hnb : m + j + 1 ≠ cycleStartAt s0 pow (m + j) + s0.cycleTime := by
      rw [ihc]
      unfold cycleStartAt at *
      omega
    obtain ⟨hc1, hc2⟩ := step_not_boundary s0 pow hc h0 (m + j) hnb
    refine ⟨?_, ?_⟩
    · rw [show m + (j + 1) = m + j + 1 by omega, hc1, ihc]
    · rw [show m + (j + 1) = m + j + 1 by omega, hc2, iho]

/-- The sequence emitted by successive ticks, via the stored state:
the pre-inversion decision of the tick XORed with the inversion flag. -/
theorem emitted_eq (s0 : State) (pow : ℕ → Option ℚ) (t : ℕ) :
    emitted s0 pow t = Bool.xor (preOut s0 pow (t + 1)) s0.opInverted := by
  unfold emitted preOut cycleStartAt onTimeAt
  rw [stateAt_succ, tick_currentOutputState, tick_out, atSecond_opInverted]

theorem stateAt_requestedPower_mem (s0 : State) (pow : ℕ → Option ℚ)
    (h : 0 ≤ s0.requestedPower ∧ s0.requestedPower ≤ 1) (n : ℕ) :
    0 ≤ (stateAt s0 pow n).requestedPower ∧ (stateAt s0 pow n).requestedPower ≤ 1 := by
  induction n with
  | zero => exact h
  | succ n ih =>
    rw [stateAt_succ, tick_requestedPower]
    unfold atSecond
    cases pow (n + 1) with
    | none => exact ih
    | some p =>
      show 0 ≤ clampPower p ∧ clampPower p ≤ 1
      exact ⟨clampPower_nonneg p, clampPower_le_one p⟩

theorem effectivePower_mem {s : State} {now : ℕ}
    (hreq : 0 ≤ s.requestedPower ∧ s.requestedPower ≤ 1)
    (hfb : 0 ≤ s.fallbackPower ∧ s.fallbackPower ≤ 1) :
    0 ≤ effectivePower s now ∧ effectivePower s now ≤ 1 := by
  unfold effectivePower
  split
  · exact hfb
  · exact hreq

theorem atSecond_requestedPower_mem (s0 : State) (pow : ℕ → Option ℚ)
    (h : 0 ≤ s0.requestedPower ∧ s0.requestedPower ≤ 1) (n : ℕ) :
    0 ≤ (atSecond s0 pow n).requestedPower ∧ (atSecond s0 pow n).requestedPower ≤ 1 := by
  unfold atSecond
  cases pow n with
  | none => exact stateAt_requestedPower_mem s0 pow h (n - 1)
  | some p =>
    show 0 ≤ clampPower p ∧ clampPower p ≤ 1
    exact ⟨clampPower_nonneg p, clampPower_le_one p⟩

/-- Every on-time the controller ever holds satisfies the dead-time
guard, provided the initial one does and all powers are in `[0,1]`. -/
theorem stateAt_onTime_ok (s0 : State) (pow : ℕ → Option ℚ)
    (hc : 0 < s0.cycleTime) (h0 : s0.cycleStartTime = 0)
    (hdc : s0.deadTime ≤ s0.cycleTime)
    (hok0 : OnTimeOK s0.deadTime s0.cycleTime s0.onTimeThisCycle)
    (hreq : 0 ≤ s0.requestedPower ∧ s0.requestedPower ≤ 1)
    (hfb : 0 ≤ s0.fallbackPower ∧ s0.fallbackPower ≤ 1) (n : ℕ) :
    OnTimeOK s0.deadTime s0.cycleTime (onTimeAt s0 pow n) := by
  induction n with
  | zero => exact hok0
  | succ n ih =>
    by_cases hb : n + 1 = cycleStartAt s0 pow n + s0.cycleTime
    · rw [(step_boundary s0 pow hc h0 n hb).2]
      have hfb' : 0 ≤ (atSecond s0 pow (n + 1)).fallbackPower ∧
          (atSecond s0 pow (n + 1)).fallbackPower ≤ 1 := by
        rw [atSecond_fallbackPower]
        exact hfb
      have hmem : 0 ≤ effectivePower (atSecond s0 pow (n + 1)) (n + 1) ∧
          effectivePower (atSecond s0 pow (n + 1)) (n + 1) ≤ 1 :=
        effectivePower_mem (atSecond_requestedPower_mem s0 pow hreq (n + 1)) hfb'
      exact computeOnTime_ok hdc hmem.2
    · rw [(step_not_boundary s0 pow hc h0 n hb).2]
      exact ih

theorem xor_cancel_right (a b : Bool) : Bool.xor (Bool.xor a b) b = a := by
  cases a <;> cases b <;> rfl

theorem stateAt_out_pos (s0 : State) (pow : ℕ → Option ℚ) (n : ℕ) (hn : 0 < n) :
    (stateAt s0 pow n).currentOutputState = Bool.xor (preOut s0 pow n) s0.opInverted := by
  obtain ⟨m, rfl⟩ : ∃ m, n = m + 1 := ⟨n - 1, by omega⟩
  exact emitted_eq s0 pow m

/-- After any change of the pre-inversion decision, the new value
persists for at least `deadTime` ticks. -/
theorem preOut_persist (s0 : State) (pow : ℕ → Option ℚ)
    (hc : 0 < s0.cycleTime) (h0 : s0.cycleStartTime = 0)
    (hdc : s0.deadTime ≤ s0.cycleTime) (n : ℕ)
    (hok : OnTimeOK s0.deadTime s0.cycleTime (onTimeAt s0 pow (n + 1)))
    (htr : preOut s0 pow n ≠ preOut s0 pow (n + 1)) :
    ∀ k, k < s0.deadTime → preOut s0 pow (n + 1 + k) = preOut s0 pow (n + 1) := by
  intro k hk
  have hwn := stateAt_cycleStart_window s0 pow hc h0 n
  have hwn1 := stateAt_cycleStart_window s0 pow hc h0 (n + 1)
  unfold OnTimeOK onTimeAt at hok
  by_cases hb : n + 1 = cycleStartAt s0 pow n + s0.cycleTime
  · obtain ⟨hcs1, _⟩ := step_boundary s0 pow hc h0 n hb
    obtain ⟨hcsk, honk⟩ := window_const s0 pow hc h0 (n + 1) k (by rw [hcs1]; omega)
    unfold preOut
    rw [hcsk, hcs1, honk]
    unfold onTimeAt
    exact decide_eq_decide.mpr (by omega)
  · obtain ⟨hcs1, hon1⟩ := step_not_boundary s0 pow hc h0 n hb
    unfold cycleStartAt at hcs1
    unfold onTimeAt at hon1
    unfold preOut cycleStartAt onTimeAt at htr
    have htr' : ¬((n - (stateAt s0 pow n).cycleStartTime
          < (stateAt s0 pow n).onTimeThisCycle) ↔
        (n + 1 - (stateAt s0 pow (n + 1)).cycleStartTime
          < (stateAt s0 pow (n + 1)).onTimeThisCycle)) :=
      fun h => htr (decide_eq_decide.mpr h)
    have hT : (stateAt s0 pow n).onTimeThisCycle
        = n + 1 - (stateAt s0 pow n).cycleStartTime := by omega
    have hwc : (n + 1 - cycleStartAt s0 pow (n + 1)) + k < s0.cycleTime := by
      unfold cycleStartAt
      omega
    obtain ⟨hcsk, honk⟩ := window_const s0 pow hc h0 (n + 1) k hwc
    unfold preOut
    rw [hcsk, honk]
    unfold cycleStartAt onTimeAt
    exact decide_eq_decide.mpr (by omega)

/-- Until the first cycle boundary the controller still holds its
initial on-time; with on-time `0` the decision is off. -/
theorem preOut_initial (s0 : State) (pow : ℕ → Option ℚ)
    (hc : 0 < s0.cycleTime) (h0 : s0.cycleStartTime = 0)
    (hinit : s0.onTimeThisCycle = 0) (n : ℕ) (hn : n < s0.cycleTime) :
    preOut s0 pow n = false := by
  have hcs0 : cycleStartAt s0 pow 0 = 0 := h0
  have hon0 : onTimeAt s0 pow 0 = 0 := hinit
  obtain ⟨hcsk, honk⟩ := window_const s0 pow hc h0 0 n (by rw [hcs0]; omega)
  unfold preOut
  rw [show (0 + n) = n from by omega] at hcsk honk
  rw [hcsk, hcs0, honk, hon0]
  simp

/-- The tick at a positive multiple of the cycle length is the cycle
boundary: it starts the cycle there. -/
theorem cycleStart_at_multiple (s0 : State) (pow : ℕ → Option ℚ)
    (hc : 0 < s0.cycleTime) (h0 : s0.cycleStartTime = 0) (K : ℕ) :
    cycleStartAt s0 pow ((K + 1) * s0.cycleTime) = (K + 1) * s0.cycleTime := by
  have hwin := stateAt_cycleStart_window s0 pow hc h0 ((K + 1) * s0.cycleTime)
  exact eq_of_dvd_window hwin.2.2 (dvd_mul_left s0.cycleTime (K + 1))
    hwin.1 hwin.2.1 (Nat.le_refl _) (by omega)

/-- The on-time of the cycle starting at `(K+1) * cycleTime` is the one
recomputed at that boundary from the then-effective power. -/
theorem boundary_onTime (s0 : State) (pow : ℕ → Option ℚ)
    (hc : 0 < s0.cycleTime) (h0 : s0.cycleStartTime = 0) (K : ℕ) :
    onTimeAt s0 pow ((K + 1) * s0.cycleTime)
      = computeOnTime s0.deadTime s0.cycleTime
          (effectivePower (atSecond s0 pow ((K + 1) * s0.cycleTime))
            ((K + 1) * s0.cycleTime)) := by
  have hmul : (K + 1) * s0.cycleTime = K * s0.cycleTime + s0.cycleTime := Nat.succ_mul K _
  have hwinm := stateAt_cycleStart_window s0 pow hc h0 (K * s0.cycleTime + s0.cycleTime - 1)
  have hcsm : cycleStartAt s0 pow (K * s0.cycleTime + s0.cycleTime - 1) = K * s0.cycleTime :=
    eq_of_dvd_window hwinm.2.2 (dvd_mul_left s0.cycleTime K)
      hwinm.1 hwinm.2.1 (by omega) (by omega)
  have hb : (K * s0.cycleTime + s0.cycleTime - 1) + 1
      = cycleStartAt s0 pow (K * s0.cycleTime + s0.cycleTime - 1) + s0.cycleTime := by
    rw [hcsm]
    omega
  have hstep := (step_boundary s0 pow hc h0 (K * s0.cycleTime + s0.cycleTime - 1) hb).2
  have he : (K * s0.cycleTime + s0.cycleTime - 1) + 1 = (K + 1) * s0.cycleTime := by omega
  rw [he] at hstep
  exact hstep

/-- If the staleness watchdog is disabled the effective power is always
the requested power. -/
theorem isStale_of_disabled {s : State} (h : s.maxUpdateInterval = 0) (now : ℕ) :
    isStale s now = false := by
  unfold isStale
  rw [h]
  simp

theorem stateAt_requestedPower_of_none (s0 : State) (pow : ℕ → Option ℚ)
    (hnone : ∀ k, pow k = none) (n : ℕ) :
    (stateAt s0 pow n).requestedPower = s0.requestedPower := by
  induction n with
  | zero => rfl
  | succ n ih =>
    rw [stateAt_succ, tick_requestedPower]
    unfold atSecond
    rw [hnone (n + 1)]
    exact ih

/-- Output during the cycle that starts at `(K+1) * cycleTime`: tick
`j` of the cycle is (logically) on exactly while `j` is below the
cycle's on-time. -/
theorem cycle_output (s0 : State) (pow : ℕ → Option ℚ) (hc : 0 < s0.cycleTime)
    (h0 : s0.cycleStartTime = 0) (K j : ℕ) (hj : j < s0.cycleTime) :
    (stateAt s0 pow ((K + 1) * s0.cycleTime + j)).currentOutputState
      = Bool.xor (decide (j < onTimeAt s0 pow ((K + 1) * s0.cycleTime)))
          s0.opInverted := by
  have hcs := cycleStart_at_multiple s0 pow hc h0 K
  obtain ⟨hcsk, honk⟩ := window_const s0 pow hc h0 ((K + 1) * s0.cycleTime) j
    (by rw [hcs]; omega)
  have hcpos : 0 < (K + 1) * s0.cycleTime := Nat.mul_pos (by omega) hc
  rw [stateAt_out_pos s0 pow _ (by omega)]
  unfold preOut
  rw [hcsk, hcs, honk]
  have e : (K + 1) * s0.cycleTime + j - (K + 1) * s0.cycleTime = j := by omega
  rw [e]

/-- During the cycle that starts at `(K+1) * cycleTime` the number of
logically-on ticks is exactly the cycle's on-time. -/
theorem onCount_cycle (s0 : State) (pow : ℕ → Option ℚ) (hc : 0 < s0.cycleTime)
    (h0 : s0.cycleStartTime = 0) (K : ℕ) :
    ((Finset.range s0.cycleTime).filter (fun j =>
        Bool.xor ((stateAt s0 pow ((K + 1) * s0.cycleTime + j)).currentOutputState)
          s0.opInverted = true)).card
      = onTimeAt s0 pow ((K + 1) * s0.cycleTime) := by
  have hT := boundary_onTime s0 pow hc h0 K
  have hTle : onTimeAt s0 pow ((K + 1) * s0.cycleTime) ≤ s0.cycleTime := by
    rw [hT]
    exact computeOnTime_le_cycle _ _ _
  have hpred : ∀ j ∈ Finset.range s0.cycleTime,
      (Bool.xor ((stateAt s0 pow ((K + 1) * s0.cycleTime + j)).currentOutputState)
          s0.opInverted = true)
        ↔ (j < onTimeAt s0 pow ((K + 1) * s0.cycleTime)) := by
    intro j hj
    rw [Finset.mem_range] at hj
    rw [cycle_output s0 pow hc h0 K j hj, xor_cancel_right]
    simp
  rw [Finset.filter_congr hpred]
  have hrange : (Finset.range s0.cycleTime).filter
        (fun j => j < onTimeAt s0 pow ((K + 1) * s0.cycleTime))
      = Finset.range (onTimeAt s0 pow ((K + 1) * s0.cycleTime)) := by
    ext x
    simp only [Finset.mem_filter, Finset.mem_range]
    omega
  rw [hrange, Finset.card_range]

theorem atSecond_of_none {s0 : State} {pow : ℕ → Option ℚ} {n : ℕ} (h : pow n = none) :
    atSecond s0 pow n = stateAt s0 pow (n - 1) := by
  unfold atSecond
  rw [h]

theorem effectivePower_of_fresh {s : State} {now : ℕ} (h : isStale s now = false) :
    effectivePower s now = s.requestedPower := by
  unfold effectivePower
  rw [h]
  simp

theorem stateAt_maxUpdateInterval (s0 : State) (pow : ℕ → Option ℚ) (n : ℕ) :
    (stateAt s0 pow n).maxUpdateInterval = s0.maxUpdateInterval :=
  (stateAt_sameConfig s0 pow n).2.2.2.2

/-- **C1.** A controller with dead time zero, staleness disabled and a
constant requested power `p ∈ [0,1]` set at time 0 and never changed:
in every full cycle (the cycle of ticks `(K+1)·c … (K+1)·c + c - 1`)
the number of ticks whose pre-inversion decision is "on" is exactly
`round(p · cycleTimeSeconds)`. -/
theorem spec_C1 (c : ℕ) (hc : 0 < c) (inv : Bool) (f p : ℚ) (hp0 : 0 ≤ p) (hp1 : p ≤ 1)
    (K : ℕ) :
    ((Finset.range c).filter (fun j =>
        Bool.xor ((stateAt (setPower (initialise c 0 inv f 0 0) p 0) (fun _ => none)
            ((K + 1) * c + j)).currentOutputState) inv = true)).card
      = (round (p * (c : ℚ))).toNat := by
  have hcount := onCount_cycle (setPower (initialise c 0 inv f 0 0) p 0) (fun _ => none)
    hc rfl K
  have hT := boundary_onTime (setPower (initialise c 0 inv f 0 0) p 0) (fun _ => none)
    hc rfl K
  have hcy : (setPower (initialise c 0 inv f 0 0) p 0).cycleTime = c := rfl
  have hdt : (setPower (initialise c 0 inv f 0 0) p 0).deadTime = 0 := rfl
  have hiv : (setPower (initialise c 0 inv f 0 0) p 0).opInverted = inv := rfl
  rw [hcy, hiv] at hcount
  rw [hcy, hdt] at hT
  have hat : atSecond (setPower (initialise c 0 inv f 0 0) p 0) (fun _ => none)
      ((K + 1) * c) = stateAt (setPower (initialise c 0 inv f 0 0) p 0) (fun _ => none)
      ((K + 1) * c - 1) := atSecond_of_none rfl
  have hstale : isStale (stateAt (setPower (initialise c 0 inv f 0 0) p 0) (fun _ => none)
      ((K + 1) * c - 1)) ((K + 1) * c) = false :=
    isStale_of_disabled (stateAt_maxUpdateInterval _ _ _) _
  have heff : effectivePower (stateAt (setPower (initialise c 0 inv f 0 0) p 0)
      (fun _ => none) ((K + 1) * c - 1)) ((K + 1) * c) = p := by
    rw [effectivePower_of_fresh hstale,
      stateAt_requestedPower_of_none _ _ (fun _ => rfl) _]
    exact clampPower_eq_self hp0 hp1
  rw [hat, heff] at hT
  rw [hcount, hT]
  exact computeOnTime_deadTime_zero hp1

/-- **C3.** Saturation: if the effective power consulted at a cycle's
boundary recomputation is `0`, every tick of that cycle is
(pre-inversion) off; if it is `1`, every tick of that cycle is
(pre-inversion) on — no transition either way. -/
theorem spec_C3 (s0 : State) (pow : ℕ → Option ℚ) (hc : 0 < s0.cycleTime)
    (h0 : s0.cycleStartTime = 0) (hdc : s0.deadTime ≤ s0.cycleTime) (K : ℕ) :
    (effectivePower (atSecond s0 pow ((K + 1) * s0.cycleTime)) ((K + 1) * s0.cycleTime) = 0 →
      ∀ j < s0.cycleTime,
        Bool.xor ((stateAt s0 pow ((K + 1) * s0.cycleTime + j)).currentOutputState)
          s0.opInverted = false) ∧
    (effectivePower (atSecond s0 pow ((K + 1) * s0.cycleTime)) ((K + 1) * s0.cycleTime) = 1 →
      ∀ j < s0.cycleTime,
        Bool.xor ((stateAt s0 pow ((K + 1) * s0.cycleTime + j)).currentOutputState)
          s0.opInverted = true) := by
  have hT := boundary_onTime s0 pow hc h0 K
  constructor
  · intro hp j hj
    rw [cycle_output s0 pow hc h0 K j hj, xor_cancel_right]
    rw [hT, hp, computeOnTime_zero]
    simp
  · intro hp j hj
    rw [cycle_output s0 pow hc h0 K j hj, xor_cancel_right]
    rw [hT, hp, computeOnTime_one hdc]
    simpa using hj

/-- **C2.** Dead-time respect: with `deadTimeSeconds = d > 0` (and the
configuration precondition `d < cycleTimeSeconds`), whatever sequence of
`setPower` calls with powers in `[0,1]` is delivered, any two starts of
maximal runs in the emitted on/off sequence are at least `d` ticks
apart — i.e. no completed on-segment or off-segment is shorter than `d`
ticks. -/
theorem spec_C2 (c d : ℕ) (inv : Bool) (f : ℚ) (m : ℕ) (pow : ℕ → Option ℚ)
    (hd : 0 < d) (hdc : d < c) (hf0 : 0 ≤ f) (hf1 : f ≤ 1)
    (hpow : ∀ n q, pow n = some q → 0 ≤ q ∧ q ≤ 1)
    (t t' : ℕ)
    (ht : runStart (emitted (initialise c d inv f m 0) pow) t)
    (ht' : runStart (emitted (initialise c d inv f m 0) pow) t')
    (htt : t < t') :
    t + d ≤ t' := by
  set s0 := initialise c d inv f m 0 with hs0
  have hcy : s0.cycleTime = c := rfl
  have hdt : s0.deadTime = d := rfl
  have hiv : s0.opInverted = inv := rfl
  have hc : 0 < s0.cycleTime := by rw [hcy]; omega
  have h0 : s0.cycleStartTime = 0 := rfl
  have hdc' : s0.deadTime ≤ s0.cycleTime := by rw [hcy, hdt]; omega
  have hok : ∀ n, OnTimeOK s0.deadTime s0.cycleTime (onTimeAt s0 pow n) :=
    stateAt_onTime_ok s0 pow hc h0 hdc' (Or.inl rfl) ⟨hf0, hf1⟩ ⟨hf0, hf1⟩
  have hem : ∀ u, emitted s0 pow u = Bool.xor (preOut s0 pow (u + 1)) inv := by
    intro u
    rw [emitted_eq, hiv]
  by_contra hlt
  push_neg at hlt
  have ht'ne : t' ≠ 0 := by omega
  have htr' : emitted s0 pow (t' - 1) ≠ emitted s0 pow t' := ht'.resolve_left ht'ne
  rcases Nat.eq_zero_or_pos t with rfl | htpos
  · have hconst : ∀ u, u < d → emitted s0 pow u = Bool.xor false inv := by
      intro u hu
      rw [hem u, preOut_initial s0 pow hc h0 rfl (u + 1) (by rw [hcy]; omega)]
    have h1 := hconst (t' - 1) (by omega)
    have h2 := hconst t' (by omega)
    exact htr' (h1.trans h2.symm)
  · have htr : emitted s0 pow (t - 1) ≠ emitted s0 pow t := ht.resolve_left (by omega)
    have hpre : preOut s0 pow t ≠ preOut s0 pow (t + 1) := by
      intro h
      apply htr
      rw [hem (t - 1), hem t, show t - 1 + 1 = t by omega, h]
    have hpers := preOut_persist s0 pow hc h0 hdc' t (hok (t + 1)) hpre
    have hEk : ∀ k, k < d → emitted s0 pow (t + k) = emitted s0 pow t := by
      intro k hk
      rw [hem (t + k), hem t, show t + k + 1 = t + 1 + k by omega, hpers k hk]
    have h1 := hEk (t' - t) (by omega)
    have h2 := hEk (t' - 1 - t) (by omega)
    rw [show t + (t' - t) = t' by omega] at h1
    rw [show t + (t' - 1 - t) = t' - 1 by omega] at h2
    exact htr' (h2.trans h1.symm)

theorem effectivePower_of_stale {s : State} {now : ℕ} (h : isStale s now = true) :
    effectivePower s now = s.fallbackPower := by
  unfold effectivePower
  rw [h]
  simp

theorem stateAt_fallbackPower (s0 : State) (pow : ℕ → Option ℚ) (n : ℕ) :
    (stateAt s0 pow n).fallbackPower = s0.fallbackPower :=
  (stateAt_sameConfig s0 pow n).2.2.2.1

theorem stateAt_lastPowerUpdateTime_of_none (s0 : State) (pow : ℕ → Option ℚ) (t0 : ℕ) :
    ∀ n, t0 ≤ n → (∀ j, t0 < j → j ≤ n → pow j = none) →
      (stateAt s0 pow n).lastPowerUpdateTime = (stateAt s0 pow t0).lastPowerUpdateTime := by
  intro n
  induction n with
  | zero =>
    intro h1 _
    obtain rfl : t0 = 0 := by omega
    rfl
  | succ n ih =>
    intro h1 h2
    by_cases he : t0 = n + 1
    · rw [he]
    · rw [stateAt_succ, tick_lastPowerUpdateTime]
      unfold atSecond
      rw [h2 (n + 1) (by omega) (Nat.le_refl _)]
      exact ih (by omega) (fun j hj1 hj2 => h2 j hj1 (by omega))

theorem stateAt_lastPowerUpdateTime_le (s0 : State) (pow : ℕ → Option ℚ)
    (h : s0.lastPowerUpdateTime = 0) (n : ℕ) :
    (stateAt s0 pow n).lastPowerUpdateTime ≤ n := by
  induction n with
  | zero =>
    rw [show stateAt s0 pow 0 = s0 from rfl, h]
  | succ n ih =>
    rw [stateAt_succ, tick_lastPowerUpdateTime]
    unfold atSecond
    cases hp : pow (n + 1) with
    | none => exact le_trans ih (by omega)
    | some p => exact Nat.le_refl _

/-- **C4.** Staleness fallback: `isStale` holds exactly when the
watchdog is enabled and more than `maxUpdateIntervalSeconds` have
passed since the last `setPower`; and once no `setPower` call has
arrived for more than `m` seconds, a cycle-boundary recomputation
computes the on-time from `fallbackPower` instead of the last
requested power. -/
theorem spec_C4 :
    (∀ (s : State) (now : ℕ),
        isStale s now = true ↔
          (0 < s.maxUpdateInterval ∧
            s.maxUpdateInterval < now - s.lastPowerUpdateTime)) ∧
    (∀ (c d m t0 K : ℕ) (inv : Bool) (f : ℚ) (pow : ℕ → Option ℚ),
        0 < c → 0 < m →
        (∀ j, t0 < j → j ≤ (K + 1) * c → pow j = none) →
        m < (K + 1) * c - t0 →
        onTimeAt (initialise c d inv f m 0) pow ((K + 1) * c)
          = computeOnTime d c f) := by
  constructor
  · intro s now
    unfold isStale
    simp
  · intro c d m t0 K inv f pow hc hm hnone hgap
    set s0 := initialise c d inv f m 0 with hs0
    have hcy : s0.cycleTime = c := rfl
    have hdt : s0.deadTime = d := rfl
    have hc' : 0 < s0.cycleTime := by rw [hcy]; omega
    have hT := boundary_onTime s0 pow hc' rfl K
    rw [hcy, hdt] at hT
    have ht0lt : t0 < (K + 1) * c := by omega
    have hatn : pow ((K + 1) * c) = none := hnone _ (by omega) (Nat.le_refl _)
    rw [atSecond_of_none hatn] at hT
    have hlast : (stateAt s0 pow ((K + 1) * c - 1)).lastPowerUpdateTime ≤ t0 := by
      rw [stateAt_lastPowerUpdateTime_of_none s0 pow t0 ((K + 1) * c - 1) (by omega)
        (fun j hj1 hj2 => hnone j hj1 (by omega))]
      exact stateAt_lastPowerUpdateTime_le s0 pow rfl t0
    have hmax : (stateAt s0 pow ((K + 1) * c - 1)).maxUpdateInterval = m :=
      (stateAt_maxUpdateInterval s0 pow _).trans rfl
    have hstale : isStale (stateAt s0 pow ((K + 1) * c - 1)) ((K + 1) * c) = true := by
      unfold isStale
      simp only [Bool.and_eq_true, decide_eq_true_eq]
      omega
    rw [effectivePower_of_stale hstale, stateAt_fallbackPower] at hT
    exact hT

theorem core_setPower {s t : State} (h : s.core = t.core) (p : ℚ) (now : ℕ) :
    (setPower s p now).core = (setPower t p now).core := by
  unfold State.core setPower at *
  simp only [Prod.mk.injEq] at h ⊢
  obtain ⟨h1, h2, h3, h4, h5, h6, h7, h8⟩ := h
  exact ⟨h1, h2, h3, h4, trivial, trivial, h7, h8⟩

/-- `tick` never reads the inversion flag except to flip the returned
bit, and never reads the stored output: states agreeing on everything
else stay in lockstep, with pre-inversion decisions equal. -/
theorem tick_core {s t : State} (h : s.core = t.core) (now : ℕ) :
    ((tick s now).1).core = ((tick t now).1).core ∧
      Bool.xor ((tick s now).2) s.opInverted = Bool.xor ((tick t now).2) t.opInverted := by
  unfold State.core at h
  simp only [Prod.mk.injEq] at h
  obtain ⟨h1, h2, h3, h4, h5, h6, h7, h8⟩ := h
  have hef : effectivePower s now = effectivePower t now := by
    unfold effectivePower isStale
    rw [h4, h6, h3, h5]
  have hcore : ((tick s now).1).core = ((tick t now).1).core := by
    unfold State.core
    simp only [Prod.mk.injEq]
    refine ⟨by rw [tick_cycleTime, tick_cycleTime, h1],
      by rw [tick_deadTime, tick_deadTime, h2],
      by rw [tick_fallbackPower, tick_fallbackPower, h3],
      by rw [tick_maxUpdateInterval, tick_maxUpdateInterval, h4],
      by rw [tick_requestedPower, tick_requestedPower, h5],
      by rw [tick_lastPowerUpdateTime, tick_lastPowerUpdateTime, h6], ?_, ?_⟩
    · by_cases hb : s.cycleStartTime + s.cycleTime ≤ now
      · rw [tick_cycleStartTime_of_boundary hb,
          tick_cycleStartTime_of_boundary (by rw [← h7, ← h1]; exact hb), h7, h1]
      · rw [tick_cycleStartTime_of_not_boundary hb,
          tick_cycleStartTime_of_not_boundary (by rw [← h7, ← h1]; exact hb), h7]
    · by_cases hb : s.cycleStartTime + s.cycleTime ≤ now
      · rw [tick_onTime_of_boundary hb,
          tick_onTime_of_boundary (by rw [← h7, ← h1]; exact hb), h2, h1, hef]
      · rw [tick_onTime_of_not_boundary hb,
          tick_onTime_of_not_boundary (by rw [← h7, ← h1]; exact hb), h8]
  refine ⟨hcore, ?_⟩
  rw [tick_out, tick_out, xor_cancel_right, xor_cancel_right]
  unfold State.core at hcore
  simp only [Prod.mk.injEq] at hcore
  rw [hcore.2.2.2.2.2.2.1, hcore.2.2.2.2.2.2.2]

theorem xor_true_eq_xor_false {a b : Bool} (h : Bool.xor a true = Bool.xor b false) :
    a = !b := by
  cases a <;> cases b <;> revert h <;> decide

/-- **C6.** Inversion: with identical configuration and identical
power/time input sequences, the controller with `outputInverted = true`
emits, tick for tick, the logical complement of the one with
`outputInverted = false`. -/
theorem spec_C6 (c d m : ℕ) (f : ℚ) (pow : ℕ → Option ℚ) (t : ℕ) :
    emitted (initialise c d true f m 0) pow t
      = !(emitted (initialise c d false f m 0) pow t) := by
  have hcore : ∀ n, (stateAt (initialise c d true f m 0) pow n).core
      = (stateAt (initialise c d false f m 0) pow n).core := by
    intro n
    induction n with
    | zero => rfl
    | succ n ih =>
      rw [stateAt_succ, stateAt_succ]
      refine (tick_core ?_ (n + 1)).1
      unfold atSecond
      cases pow (n + 1) with
      | none => exact ih
      | some p => exact core_setPower ih p (n + 1)
  have hats : (atSecond (initialise c d true f m 0) pow (t + 1)).core
      = (atSecond (initialise c d false f m 0) pow (t + 1)).core := by
    unfold atSecond
    cases pow (t + 1) with
    | none => exact hcore t
    | some p => exact core_setPower (hcore t) p (t + 1)
  have h2 := (tick_core hats (t + 1)).2
  have e1 : (atSecond (initialise c d true f m 0) pow (t + 1)).opInverted = true :=
    (atSecond_opInverted _ _ _).trans rfl
  have e2 : (atSecond (initialise c d false f m 0) pow (t + 1)).opInverted = false :=
    (atSecond_opInverted _ _ _).trans rfl
  rw [e1, e2] at h2
  unfold emitted
  rw [stateAt_succ, stateAt_succ, tick_currentOutputState, tick_currentOutputState]
  exact xor_true_eq_xor_false h2

end Timeprop

namespace Driver

open Timeprop

/-- A fold preserves any property each step preserves. -/
theorem foldl_preserve {α β : Type} (P : β → Prop) (f : β → α → β)
    (hf : ∀ b a, P b → P (f b a)) : ∀ (l : List α) (b : β), P b → P (l.foldl f b)
  | [], _, h => h
  | a :: l, b, h => foldl_preserve P f hf l (f b a) (hf b a h)

theorem step_counter {N : ℕ} (cfg : Config N) (ds : DriverState N) (i : Fin N) :
    (everySecondStep cfg ds i).timeprop_current_time_secs
      = ds.timeprop_current_time_secs := by
  unfold everySecondStep ExecuteCommandPower
  dsimp only
  split <;> rfl

theorem step_mqtt {N : ℕ} (cfg : Config N) (ds : DriverState N) (i : Fin N) :
    (everySecondStep cfg ds i).mqtt_data = ds.mqtt_data := by
  unfold everySecondStep ExecuteCommandPower
  dsimp only
  split <;> rfl

theorem step_timeprops {N : ℕ} (cfg : Config N) (ds : DriverState N) (i : Fin N) :
    (everySecondStep cfg ds i).timeprops
      = Function.update ds.timeprops i
          (tick (ds.timeprops i) ds.timeprop_current_time_secs).1 := by
  unfold everySecondStep ExecuteCommandPower
  dsimp only
  split <;> rfl

theorem step_log {N : ℕ} (cfg : Config N) (ds : DriverState N) (i : Fin N) :
    (everySecondStep cfg ds i).commandLog
      = ds.commandLog ++
          (if (tick (ds.timeprops i) ds.timeprop_current_time_secs).2
              ≠ ds.currentRelayStates (cfg.relayNos i - 1)
           then [(cfg.relayNos i, (tick (ds.timeprops i) ds.timeprop_current_time_secs).2)]
           else []) := by
  unfold everySecondStep ExecuteCommandPower
  dsimp only
  split
  next h => rfl
  next h => simp

theorem step_bit_self {N : ℕ} (cfg : Config N) (ds : DriverState N) (i : Fin N) :
    (everySecondStep cfg ds i).currentRelayStates (cfg.relayNos i - 1)
      = (tick (ds.timeprops i) ds.timeprop_current_time_secs).2 := by
  unfold everySecondStep ExecuteCommandPower
  dsimp only
  split
  next h => simp
  next h => exact (Decidable.not_not.mp h).symm

theorem step_bit_other {N : ℕ} (cfg : Config N) (ds : DriverState N) (i : Fin N)
    (b : ℕ) (hb : b ≠ cfg.relayNos i - 1) :
    (everySecondStep cfg ds i).currentRelayStates b = ds.currentRelayStates b := by
  unfold everySecondStep ExecuteCommandPower
  dsimp only
  split
  next h => simp [hb]
  next h => rfl

/-- The per-second loop, basic part: the counter and the
acknowledgement buffer are untouched, and every listed controller is
ticked exactly once (with the counter the loop was entered with),
every unlisted one not at all. -/
theorem foldl_step_basic {N : ℕ} (cfg : Config N) :
    ∀ (l : List (Fin N)) (ds : DriverState N), l.Nodup →
      ((l.foldl (everySecondStep cfg) ds).timeprop_current_time_secs
          = ds.timeprop_current_time_secs) ∧
      ((l.foldl (everySecondStep cfg) ds).mqtt_data = ds.mqtt_data) ∧
      (∀ i, i ∉ l → (l.foldl (everySecondStep cfg) ds).timeprops i = ds.timeprops i) ∧
      (∀ i, i ∈ l → (l.foldl (everySecondStep cfg) ds).timeprops i
          = (tick (ds.timeprops i) ds.timeprop_current_time_secs).1) := by
  intro l
  induction l with
  | nil =>
    intro ds _
    exact ⟨rfl, rfl, fun i _ => rfl, fun i hi => absurd hi (List.not_mem_nil i)⟩
  | cons a l ih =>
    intro ds hnd
    have hal : a ∉ l := (List.nodup_cons.mp hnd).1
    have hnd' : l.Nodup := (List.nodup_cons.mp hnd).2
    obtain ⟨ihc, ihm, ihout, ihin⟩ := ih (everySecondStep cfg ds a) hnd'
    have hstepc := step_counter cfg ds a
    have hstept := step_timeprops cfg ds a
    refine ⟨ihc.trans hstepc, ihm.trans (step_mqtt cfg ds a), ?_, ?_⟩
    · intro i hi
      have hia : i ≠ a := fun e => hi (e ▸ List.mem_cons_self a l)
      have hil : i ∉ l := fun e => hi (List.mem_cons_of_mem a e)
      rw [show (a :: l).foldl (everySecondStep cfg) ds
          = l.foldl (everySecondStep cfg) (everySecondStep cfg ds a) from rfl]
      rw [ihout i hil, hstept, Function.update_noteq hia]
    · intro i hi
      rw [show (a :: l).foldl (everySecondStep cfg) ds
          = l.foldl (everySecondStep cfg) (everySecondStep cfg ds a) from rfl]
      rcases List.mem_cons.mp hi with rfl | hil
      · rw [ihout i hal, hstept, Function.update_same]
      · have hia : i ≠ a := fun e => hal (e ▸ hil)
        rw [ihin i hil, hstept, Function.update_noteq hia, hstepc]

/-- The per-second loop, relay part (distinct relays, numbered from 1):
the issued commands extend the log in ascending controller order, a
command appears exactly when the fresh tick result differs from the
relay's current bit, and afterwards every listed relay's bit holds its
fresh tick result, all other bits being untouched. -/
theorem foldl_step_relays {N : ℕ} (cfg : Config N)
    (hrel : ∀ i, 1 ≤ cfg.relayNos i)
    (hinj : ∀ i j : Fin N, cfg.relayNos i = cfg.relayNos j → i = j) :
    ∀ (l : List (Fin N)) (ds : DriverState N), l.Nodup →
      ((l.foldl (everySecondStep cfg) ds).commandLog
          = ds.commandLog ++ l.filterMap (fun i =>
              if (tick (ds.timeprops i) ds.timeprop_current_time_secs).2
                  ≠ ds.currentRelayStates (cfg.relayNos i - 1)
              then some (cfg.relayNos i,
                (tick (ds.timeprops i) ds.timeprop_current_time_secs).2)
              else none)) ∧
      (∀ i, i ∈ l → (l.foldl (everySecondStep cfg) ds).currentRelayStates
            (cfg.relayNos i - 1)
          = (tick (ds.timeprops i) ds.timeprop_current_time_secs).2) ∧
      (∀ b, (∀ i, i ∈ l → b ≠ cfg.relayNos i - 1) →
          (l.foldl (everySecondStep cfg) ds).currentRelayStates b
            = ds.currentRelayStates b) := by
  intro l
  induction l with
  | nil =>
    intro ds _
    exact ⟨by simp, fun i hi => absurd hi (List.not_mem_nil i), fun b _ => rfl⟩
  | cons a l ih =>
    intro ds hnd
    have hal : a ∉ l := (List.nodup_cons.mp hnd).1
    have hnd' : l.Nodup := (List.nodup_cons.mp hnd).2
    obtain ⟨ihlog, ihbit, ihother⟩ := ih (everySecondStep cfg ds a) hnd'
    have hstepc := step_counter cfg ds a
    have hstept := step_timeprops cfg ds a
    have hbitne : ∀ i : Fin N, i ≠ a →
        cfg.relayNos i - 1 ≠ cfg.relayNos a - 1 := by
      intro i hia e
      have h1 := hrel i
      have h2 := hrel a
      exact hia (hinj i a (by omega))
    have hfold : (a :: l).foldl (everySecondStep cfg) ds
        = l.foldl (everySecondStep cfg) (everySecondStep cfg ds a) := rfl
    have hfm : l.filterMap (fun i =>
        if (tick ((everySecondStep cfg ds a).timeprops i)
              (everySecondStep cfg ds a).timeprop_current_time_secs).2
            ≠ (everySecondStep cfg ds a).currentRelayStates (cfg.relayNos i - 1)
        then some (cfg.relayNos i,
          (tick ((everySecondStep cfg ds a).timeprops i)
            (everySecondStep cfg ds a).timeprop_current_time_secs).2)
        else none)
        = l.filterMap (fun i =>
            if (tick (ds.timeprops i) ds.timeprop_current_time_secs).2
                ≠ ds.currentRelayStates (cfg.relayNos i - 1)
            then some (cfg.relayNos i,
              (tick (ds.timeprops i) ds.timeprop_current_time_secs).2)
            else none) := by
      apply List.filterMap_congr
      intro i hil
      have hia : i ≠ a := fun e => hal (e ▸ hil)
      rw [hstepc, hstept, Function.update_noteq hia,
        step_bit_other cfg ds a _ (hbitne i hia)]
    refine ⟨?_, ?_, ?_⟩
    · rw [hfold, ihlog, hfm, step_log, List.filterMap_cons]
      by_cases hcmd : (tick (ds.timeprops a) ds.timeprop_current_time_secs).2
          ≠ ds.currentRelayStates (cfg.relayNos a - 1)
      · rw [if_pos hcmd, if_pos hcmd]
        simp
      · rw [if_neg hcmd, if_neg hcmd]
        simp
    · intro i hi
      rw [hfold]
      rcases List.mem_cons.mp hi with rfl | hil
      · rw [ihother (cfg.relayNos i - 1)
            (fun j hjl e => (hbitne j (fun ej => hal (ej ▸ hjl))) e.symm),
          step_bit_self]
      · have hia : i ≠ a := fun e => hal (e ▸ hil)
        rw [ihbit i hil, hstepc, hstept, Function.update_noteq hia]
    · intro b hb
      rw [hfold, ihother b (fun i hil => hb i (List.mem_cons_of_mem a hil)),
        step_bit_other cfg ds a b (hb a (List.mem_cons_self a l))]

theorem everySecond_counter {N : ℕ} (cfg : Config N) (ds : DriverState N) :
    (Timeprop_Every_Second cfg ds).timeprop_current_time_secs
      = ds.timeprop_current_time_secs + 1 := by
  unfold Timeprop_Every_Second
  exact (foldl_step_basic cfg (List.finRange N) _ (List.nodup_finRange N)).1

theorem everySecond_timeprops {N : ℕ} (cfg : Config N) (ds : DriverState N) (i : Fin N) :
    (Timeprop_Every_Second cfg ds).timeprops i
      = (tick (ds.timeprops i) (ds.timeprop_current_time_secs + 1)).1 := by
  unfold Timeprop_Every_Second
  exact (foldl_step_basic cfg (List.finRange N) _ (List.nodup_finRange N)).2.2.2 i
    (List.mem_finRange i)

theorem everySecond_mqtt {N : ℕ} (cfg : Config N) (ds : DriverState N) :
    (Timeprop_Every_Second cfg ds).mqtt_data = ds.mqtt_data := by
  unfold Timeprop_Every_Second
  exact (foldl_step_basic cfg (List.finRange N) _ (List.nodup_finRange N)).2.1

theorem everySecond_log {N : ℕ} (cfg : Config N)
    (hrel : ∀ i, 1 ≤ cfg.relayNos i)
    (hinj : ∀ i j : Fin N, cfg.relayNos i = cfg.relayNos j → i = j)
    (ds : DriverState N) :
    (Timeprop_Every_Second cfg ds).commandLog
      = ds.commandLog ++ (List.finRange N).filterMap (fun i =>
          if (tick (ds.timeprops i) (ds.timeprop_current_time_secs + 1)).2
              ≠ ds.currentRelayStates (cfg.relayNos i - 1)
          then some (cfg.relayNos i,
            (tick (ds.timeprops i) (ds.timeprop_current_time_secs + 1)).2)
          else none) := by
  unfold Timeprop_Every_Second
  exact (foldl_step_relays cfg hrel hinj (List.finRange N) _ (List.nodup_finRange N)).1

theorem everySecond_bit {N : ℕ} (cfg : Config N)
    (hrel : ∀ i, 1 ≤ cfg.relayNos i)
    (hinj : ∀ i j : Fin N, cfg.relayNos i = cfg.relayNos j → i = j)
    (ds : DriverState N) (i : Fin N) :
    (Timeprop_Every_Second cfg ds).currentRelayStates (cfg.relayNos i - 1)
      = (tick (ds.timeprops i) (ds.timeprop_current_time_secs + 1)).2 := by
  unfold Timeprop_Every_Second
  exact (foldl_step_relays cfg hrel hinj (List.finRange N) _ (List.nodup_finRange N)).2.1 i
    (List.mem_finRange i)

theorem lastEmitted_append (log : List (ℕ × Bool)) (r r' : ℕ) (s : Bool) :
    lastEmitted (log ++ [(r', s)]) r = if r' = r then s else lastEmitted log r := by
  unfold lastEmitted
  rw [List.filter_append, List.foldl_append]
  by_cases h : r' = r
  · simp [h]
  · simp [h]

theorem step_relayInv {N : ℕ} (cfg : Config N)
    (hrel : ∀ i, 1 ≤ cfg.relayNos i)
    (hinj : ∀ i j : Fin N, cfg.relayNos i = cfg.relayNos j → i = j)
    (ds : DriverState N) (i : Fin N) (h : RelayInv cfg ds) :
    RelayInv cfg (everySecondStep cfg ds i) := by
  intro j
  by_cases hij : j = i
  · subst hij
    rw [step_bit_self, step_log]
    by_cases hcmd : (tick (ds.timeprops j) ds.timeprop_current_time_secs).2
        ≠ ds.currentRelayStates (cfg.relayNos j - 1)
    · rw [if_pos hcmd, lastEmitted_append, if_pos rfl]
    · rw [if_neg hcmd]
      simp only [List.append_nil]
      rw [← h j]
      exact (Decidable.not_not.mp hcmd)
  · have hbitne : cfg.relayNos j - 1 ≠ cfg.relayNos i - 1 := by
      intro e
      have h1 := hrel i
      have h2 := hrel j
      exact hij (hinj j i (by omega))
    rw [step_bit_other cfg ds i _ hbitne, step_log]
    by_cases hcmd : (tick (ds.timeprops i) ds.timeprop_current_time_secs).2
        ≠ ds.currentRelayStates (cfg.relayNos i - 1)
    · rw [if_pos hcmd, lastEmitted_append, if_neg (fun e => hij (hinj j i e.symm))]
      exact h j
    · rw [if_neg hcmd]
      simp only [List.append_nil]
      exact h j

theorem command_relayFields {N : ℕ} (ds : DriverState N) (index : ℕ) (payload : ℚ) :
    (Timeprop_Command ds index payload).currentRelayStates = ds.currentRelayStates ∧
      (Timeprop_Command ds index payload).commandLog = ds.commandLog ∧
      (Timeprop_Command ds index payload).timeprop_current_time_secs
        = ds.timeprop_current_time_secs := by
  unfold Timeprop_Command
  dsimp only
  split <;> exact ⟨rfl, rfl, rfl⟩

theorem setPowerCall_relayFields {N : ℕ} (ds : DriverState N) (index : ℤ) (power : ℚ) :
    (Timeprop_Set_Power ds index power).currentRelayStates = ds.currentRelayStates ∧
      (Timeprop_Set_Power ds index power).commandLog = ds.commandLog ∧
      (Timeprop_Set_Power ds index power).mqtt_data = ds.mqtt_data ∧
      (Timeprop_Set_Power ds index power).timeprop_current_time_secs
        = ds.timeprop_current_time_secs := by
  unfold Timeprop_Set_Power
  split <;> exact ⟨rfl, rfl, rfl, rfl⟩

theorem driverRun_relayInv {N : ℕ} (cfg : Config N)
    (hrel : ∀ i, 1 ≤ cfg.relayNos i)
    (hinj : ∀ i j : Fin N, cfg.relayNos i = cfg.relayNos j → i = j)
    (es : List Event) : RelayInv cfg (driverRun cfg es) := by
  unfold driverRun
  refine foldl_preserve (RelayInv cfg) (applyEvent cfg) ?_ es _ ?_
  · intro ds e h
    cases e with
    | everySecond =>
      unfold applyEvent Timeprop_Every_Second
      refine foldl_preserve (RelayInv cfg) (everySecondStep cfg)
        (fun b a hb => step_relayInv cfg hrel hinj b a hb) _ _ ?_
      exact h
    | command k q =>
      obtain ⟨h1, h2, _⟩ := command_relayFields ds k q
      show RelayInv cfg (Timeprop_Command ds k q)
      intro j
      rw [h1, h2]
      exact h j
    | setPowerCall z q =>
      obtain ⟨h1, h2, _, _⟩ := setPowerCall_relayFields ds z q
      show RelayInv cfg (Timeprop_Set_Power ds z q)
      intro j
      rw [h1, h2]
      exact h j
  · intro j
    rfl

theorem applyEvent_counter {N : ℕ} (cfg : Config N) (ds : DriverState N) (e : Event) :
    (applyEvent cfg ds e).timeprop_current_time_secs
      = ds.timeprop_current_time_secs + (if Event.isTick e then 1 else 0) := by
  cases e with
  | everySecond => exact everySecond_counter cfg ds
  | command k q => exact ((command_relayFields ds k q).2.2).trans (by simp [Event.isTick])
  | setPowerCall z q =>
    exact ((setPowerCall_relayFields ds z q).2.2.2).trans (by simp [Event.isTick])

theorem run_counter {N : ℕ} (cfg : Config N) :
    ∀ (es : List Event) (ds : DriverState N),
      (es.foldl (applyEvent cfg) ds).timeprop_current_time_secs
        = ds.timeprop_current_time_secs + es.countP (fun e => Event.isTick e) := by
  intro es
  induction es with
  | nil =>
    intro ds
    simp
  | cons e es ih =>
    intro ds
    rw [show (e :: es).foldl (applyEvent cfg) ds
        = es.foldl (applyEvent cfg) (applyEvent cfg ds e) from rfl,
      ih, applyEvent_counter, List.countP_cons]
    cases he : Event.isTick e <;> simp [he] <;> omega

theorem driverRun_counter {N : ℕ} (cfg : Config N) (es : List Event) :
    (driverRun cfg es).timeprop_current_time_secs
      = es.countP (fun e => Event.isTick e) := by
  unfold driverRun
  rw [run_counter]
  have h0 : (Timeprop_Init cfg (initialState N)).timeprop_current_time_secs = 0 := rfl
  omega

theorem driverRun_append {N : ℕ} (cfg : Config N) (es : List Event) (e : Event) :
    driverRun cfg (es ++ [e]) = applyEvent cfg (driverRun cfg es) e := by
  unfold driverRun
  rw [List.foldl_append]
  rfl

/-- **C9.** `Timeprop_Every_Second` ticks every controller exactly once
with the same, just-incremented `now`, issues the power commands in
ascending index order, and issues one for an output exactly when the
fresh tick result differs from the relay bit the driver holds for that
output; along every run that bit equals the state last emitted for the
output's relay (off before any command was ever issued). -/
theorem spec_C9 {N : ℕ} (cfg : Config N)
    (hrel : ∀ i, 1 ≤ cfg.relayNos i)
    (hinj : ∀ i j : Fin N, cfg.relayNos i = cfg.relayNos j → i = j) :
    (∀ ds : DriverState N,
      (Timeprop_Every_Second cfg ds).timeprop_current_time_secs
          = ds.timeprop_current_time_secs + 1 ∧
      (∀ i, (Timeprop_Every_Second cfg ds).timeprops i
          = (tick (ds.timeprops i) (ds.timeprop_current_time_secs + 1)).1) ∧
      (Timeprop_Every_Second cfg ds).commandLog
        = ds.commandLog ++ (List.finRange N).filterMap (fun i =>
            if (tick (ds.timeprops i) (ds.timeprop_current_time_secs + 1)).2
                ≠ ds.currentRelayStates (cfg.relayNos i - 1)
            then some (cfg.relayNos i,
              (tick (ds.timeprops i) (ds.timeprop_current_time_secs + 1)).2)
            else none)) ∧
    (∀ (es : List Event) (i : Fin N),
      (driverRun cfg es).currentRelayStates (cfg.relayNos i - 1)
        = lastEmitted (driverRun cfg es).commandLog (cfg.relayNos i)) :=
  ⟨fun ds => ⟨everySecond_counter cfg ds,
      fun i => everySecond_timeprops cfg ds i,
      everySecond_log cfg hrel hinj ds⟩,
    fun es i => driverRun_relayInv cfg hrel hinj es i⟩

/-- **C10.** The single global seconds counter: every controller is
initialised with counter value `0`; the once-per-second handler
increments the counter by exactly 1 before any tick, so within one
second every tick receives the identical `now`, which equals the number
of elapsed seconds (ticks are therefore strictly increasing by 1 across
seconds); neither set-power entry point modifies the counter; and a
set-power request after trace `es` records exactly the current counter
value, the `now` of the most recent tick. -/
theorem spec_C10 {N : ℕ} (cfg : Config N) :
    (∀ i, (driverRun cfg []).timeprops i
        = Timeprop.initialise (cfg.cycleTimes i) (cfg.deadTimes i) (cfg.opInverts i)
            ((truncToInt (cfg.fallbackPowers i) : ℤ) : ℚ) (cfg.maxIntervals i) 0) ∧
    (∀ es : List Event, (driverRun cfg es).timeprop_current_time_secs
        = es.countP (fun e => Event.isTick e)) ∧
    (∀ ds : DriverState N,
        (Timeprop_Every_Second cfg ds).timeprop_current_time_secs
            = ds.timeprop_current_time_secs + 1 ∧
          ∀ i, (Timeprop_Every_Second cfg ds).timeprops i
            = (tick (ds.timeprops i) (ds.timeprop_current_time_secs + 1)).1) ∧
    (∀ (ds : DriverState N) (k : ℕ) (q : ℚ),
        (Timeprop_Command ds k q).timeprop_current_time_secs
          = ds.timeprop_current_time_secs) ∧
    (∀ (ds : DriverState N) (z : ℤ) (q : ℚ),
        (Timeprop_Set_Power ds z q).timeprop_current_time_secs
          = ds.timeprop_current_time_secs) ∧
    (∀ (es : List Event) (i : Fin N),
        (driverRun cfg (es ++ [Event.everySecond])).timeprops i
          = (tick ((driverRun cfg es).timeprops i)
              (es.countP (fun e => Event.isTick e) + 1)).1) ∧
    (∀ (es : List Event) (k : ℕ) (q : ℚ) (h : k < N),
        ((driverRun cfg (es ++ [Event.command k q])).timeprops
            ⟨k, h⟩).lastPowerUpdateTime
          = es.countP (fun e => Event.isTick e)) := by
  refine ⟨fun i => rfl, driverRun_counter cfg, ?_, ?_, ?_, ?_, ?_⟩
  · exact fun ds => ⟨everySecond_counter cfg ds, fun i => everySecond_timeprops cfg ds i⟩
  · exact fun ds k q => (command_relayFields ds k q).2.2
  · exact fun ds z q => (setPowerCall_relayFields ds z q).2.2.2
  · intro es i
    rw [driverRun_append]
    show (Timeprop_Every_Second cfg (driverRun cfg es)).timeprops i = _
    rw [everySecond_timeprops, driverRun_counter]
  · intro es k q h
    rw [driverRun_append]
    show ((Timeprop_Command (driverRun cfg es) k q).timeprops ⟨k, h⟩).lastPowerUpdateTime
      = _
    unfold Timeprop_Command
    dsimp only
    rw [dif_pos h]
    dsimp only
    rw [Function.update_same]
    show (driverRun cfg es).timeprop_current_time_secs = _
    exact driverRun_counter cfg es

theorem setPowerClampCongr {s : Timeprop.State} {p q : ℚ}
    (h : clampPower p = clampPower q) (now : ℕ) :
    setPower s p now = setPower s q now := by
  unfold setPower
  rw [h]

theorem clamp_three_halves : clampPower (3 / 2) = clampPower 1 := by
  unfold clampPower
  norm_num

theorem clamp_neg_three : clampPower (-3) = clampPower 0 := by
  unfold clampPower
  norm_num

theorem truncToInt_mem {f : ℚ} (h0 : 0 ≤ f) (h1 : f ≤ 1) :
    0 ≤ ((truncToInt f : ℤ) : ℚ) ∧ ((truncToInt f : ℤ) : ℚ) ≤ 1 := by
  unfold truncToInt
  rw [if_pos h0]
  constructor
  · exact_mod_cast Int.floor_nonneg.mpr h0
  · have h2 : ⌊f⌋ ≤ ⌊(1 : ℚ)⌋ := Int.floor_le_floor h1
    rw [Int.floor_one] at h2
    exact_mod_cast h2

theorem applyEvent_reqInRange {N : ℕ} (cfg : Config N) (ds : DriverState N) (e : Event)
    (h : ReqInRange ds) : ReqInRange (applyEvent cfg ds e) := by
  cases e with
  | everySecond =>
    intro i
    show 0 ≤ ((Timeprop_Every_Second cfg ds).timeprops i).requestedPower ∧
        ((Timeprop_Every_Second cfg ds).timeprops i).requestedPower ≤ 1
    rw [everySecond_timeprops, tick_requestedPower]
    exact h i
  | command k q =>
    intro i
    show 0 ≤ ((Timeprop_Command ds k q).timeprops i).requestedPower ∧
        ((Timeprop_Command ds k q).timeprops i).requestedPower ≤ 1
    unfold Timeprop_Command
    dsimp only
    split
    next hk =>
      dsimp only
      rw [Function.update_apply]
      split
      next =>
        exact ⟨clampPower_nonneg q, clampPower_le_one q⟩
      next => exact h i
    next => exact h i
  | setPowerCall z q =>
    intro i
    show 0 ≤ ((Timeprop_Set_Power ds z q).timeprops i).requestedPower ∧
        ((Timeprop_Set_Power ds z q).timeprops i).requestedPower ≤ 1
    unfold Timeprop_Set_Power
    split
    next hz =>
      dsimp only
      rw [Function.update_apply]
      split
      next =>
        exact ⟨clampPower_nonneg q, clampPower_le_one q⟩
      next => exact h i
    next => exact h i

/-- **C5.** `requestedPower` is always in `[0,1]` along every run of
the bank (when the configured fallbacks are), because `setPower` clamps
its input: dispatching power `1.5` leaves exactly the state that `1.0`
would, and `-3` exactly the state `0.0` would, with no error. -/
theorem spec_C5 :
    (∀ (N : ℕ) (cfg : Config N) (es : List Event),
        (∀ i, 0 ≤ cfg.fallbackPowers i ∧ cfg.fallbackPowers i ≤ 1) →
        ∀ i, 0 ≤ ((driverRun cfg es).timeprops i).requestedPower ∧
          ((driverRun cfg es).timeprops i).requestedPower ≤ 1) ∧
    (∀ (N : ℕ) (ds : DriverState N) (index : ℤ),
        Timeprop_Set_Power ds index (3 / 2) = Timeprop_Set_Power ds index 1) ∧
    (∀ (N : ℕ) (ds : DriverState N) (index : ℤ),
        Timeprop_Set_Power ds index (-3) = Timeprop_Set_Power ds index 0) := by
  refine ⟨?_, ?_, ?_⟩
  · intro N cfg es hf
    refine foldl_preserve ReqInRange (applyEvent cfg)
      (fun b a hb => applyEvent_reqInRange cfg b a hb) es _ ?_
    intro i
    exact truncToInt_mem (hf i).1 (hf i).2
  · intro N ds index
    unfold Timeprop_Set_Power
    split
    next => simp only [setPowerClampCongr clamp_three_halves]
    next => rfl
  · intro N ds index
    unfold Timeprop_Set_Power
    split
    next => simp only [setPowerClampCongr clamp_neg_three]
    next => rfl

/-- **C7** (counterexample): dispatching a set-power request for the
out-of-range index `1` of a one-output bank through the command handler
is not free of observable output — the handler still writes the
acknowledgement echoing index and payload into `mqtt_data`, which was
empty before. -/
theorem spec_C7_counterexample :
    (driverRun exampleConfig []).mqtt_data = none ∧
      (Timeprop_Command (driverRun exampleConfig []) 1 (1 / 2)).mqtt_data
        = some (1, 1 / 2) :=
  ⟨rfl, rfl⟩

/-- **C7** (amended): an out-of-range index makes `Timeprop_Set_Power`
a complete no-op, and makes the command handler leave the controllers,
the relay bits, the counter and the command log untouched — but the
handler still emits its acknowledgement message echoing the index and
the payload. -/
theorem spec_C7_amended :
    (∀ (N : ℕ) (ds : DriverState N) (index : ℤ) (power : ℚ),
        (index < 0 ∨ (N : ℤ) ≤ index) → Timeprop_Set_Power ds index power = ds) ∧
    (∀ (N : ℕ) (ds : DriverState N) (index : ℕ) (payload : ℚ),
        N ≤ index →
          (Timeprop_Command ds index payload).timeprops = ds.timeprops ∧
          (Timeprop_Command ds index payload).currentRelayStates
            = ds.currentRelayStates ∧
          (Timeprop_Command ds index payload).timeprop_current_time_secs
            = ds.timeprop_current_time_secs ∧
          (Timeprop_Command ds index payload).commandLog = ds.commandLog ∧
          (Timeprop_Command ds index payload).mqtt_data = some (index, payload)) := by
  constructor
  · intro N ds index power h
    unfold Timeprop_Set_Power
    rw [dif_neg (by omega)]
  · intro N ds index payload h
    unfold Timeprop_Command
    dsimp only
    rw [dif_neg (by omega)]
    exact ⟨rfl, rfl, rfl, rfl, rfl⟩

/-- **C8** (the `int` truncation in `Timeprop_Init`): with configured
fallback power `0.5` the controller's `initialise` receives fallback
power `0`, not the configured value — `Timeprop_Init` passes the
configured float through a local C `int` array, losing the fraction. -/
theorem spec_C8_bug :
    ((driverRun exampleConfig []).timeprops 0).fallbackPower = 0 ∧
      exampleConfig.fallbackPowers 0 = 1 / 2 ∧ (1 / 2 : ℚ) ≠ 0 := by
  refine ⟨?_, rfl, by norm_num⟩
  show ((truncToInt (1 / 2) : ℤ) : ℚ) = 0
  unfold truncToInt
  rw [if_pos (by norm_num)]
  norm_num [Int.floor_eq_zero_iff, Set.mem_Ico]

end Driver

section Witnesses

set_option allowUnsafeReducibility true
attribute [local semireducible] Rat.mul Rat.inv Rat.add Rat.sub

theorem spec_C1_witness :
    0 < 10 ∧
      ((Finset.range 10).filter (fun j =>
          Bool.xor ((Timeprop.stateAt
              (Timeprop.setPower (Timeprop.initialise 10 0 false 0 0 0) (1 / 5) 0)
              (fun _ => none) ((0 + 1) * 10 + j)).currentOutputState) false = true)).card
        = (round ((1 / 5 : ℚ) * (10 : ℚ))).toNat :=
  ⟨by decide,
    Timeprop.spec_C1 10 (by decide) false 0 (1 / 5) (by decide) (by decide) 0⟩

theorem spec_C2_witness :
    Timeprop.runStart (Timeprop.emitted (Timeprop.initialise 5 2 false 0 0 0) powC2) 0 ∧
      Timeprop.runStart (Timeprop.emitted (Timeprop.initialise 5 2 false 0 0 0) powC2) 4 ∧
      0 + 2 ≤ 4 := by
  refine ⟨by decide, by decide, ?_⟩
  refine Timeprop.spec_C2 5 2 false 0 0 powC2 (by decide) (by decide) (by decide)
    (by decide) ?_ 0 4 (by decide) (by decide) (by decide)
  intro n q hq
  unfold powC2 at hq
  by_cases hn : n = 3
  · rw [if_pos hn] at hq
    injection hq with h
    rw [← h]
    exact ⟨by decide, by decide⟩
  · rw [if_neg hn] at hq
    cases hq

theorem spec_C3_witness :
    Bool.xor ((Timeprop.stateAt (Timeprop.initialise 10 2 false 0 0 0)
        (fun _ => none) 13).currentOutputState) false = false ∧
      Bool.xor ((Timeprop.stateAt
          (Timeprop.setPower (Timeprop.initialise 10 2 false 0 0 0) 1 0)
          (fun _ => none) 13).currentOutputState) false = true :=
  ⟨(Timeprop.spec_C3 (Timeprop.initialise 10 2 false 0 0 0) (fun _ => none)
      (by decide) rfl (by decide) 0).1 (by decide) 3 (by decide),
    (Timeprop.spec_C3 (Timeprop.setPower (Timeprop.initialise 10 2 false 0 0 0) 1 0)
      (fun _ => none) (by decide) rfl (by decide) 0).2 (by decide) 3 (by decide)⟩

theorem spec_C4_witness :
    (Timeprop.isStale (Timeprop.initialise 5 1 false 0 2 0) 9 = true ↔
        (0 < 2 ∧ 2 < 9 - 0)) ∧
      Timeprop.onTimeAt (Timeprop.initialise 5 1 false (1 / 2) 2 0) (fun _ => none) 5
        = Timeprop.computeOnTime 1 5 (1 / 2) :=
  ⟨Timeprop.spec_C4.1 (Timeprop.initialise 5 1 false 0 2 0) 9,
    Timeprop.spec_C4.2 5 1 2 0 0 false (1 / 2) (fun _ => none) (by decide) (by decide)
      (fun _ _ _ => rfl) (by decide)⟩

theorem spec_C5_witness :
    (0 ≤ ((Driver.driverRun Driver.exampleConfig []).timeprops 0).requestedPower ∧
        ((Driver.driverRun Driver.exampleConfig []).timeprops 0).requestedPower ≤ 1) ∧
      Driver.Timeprop_Set_Power (Driver.driverRun Driver.exampleConfig []) 0 (3 / 2)
        = Driver.Timeprop_Set_Power (Driver.driverRun Driver.exampleConfig []) 0 1 :=
  ⟨Driver.spec_C5.1 1 Driver.exampleConfig [] (by decide) 0,
    Driver.spec_C5.2.1 1 (Driver.driverRun Driver.exampleConfig []) 0⟩

theorem spec_C7_amended_witness :
    Driver.Timeprop_Set_Power (Driver.driverRun Driver.exampleConfig []) (-1) (1 / 2)
        = Driver.driverRun Driver.exampleConfig [] ∧
      (Driver.Timeprop_Command (Driver.driverRun Driver.exampleConfig []) 1
          (1 / 2)).mqtt_data = some (1, 1 / 2) :=
  ⟨Driver.spec_C7_amended.1 1 (Driver.driverRun Driver.exampleConfig []) (-1) (1 / 2)
      (Or.inl (by decide)),
    (Driver.spec_C7_amended.2 1 (Driver.driverRun Driver.exampleConfig []) 1 (1 / 2)
      (by decide)).2.2.2.2⟩

theorem spec_C9_witness :
    (Driver.Timeprop_Every_Second Driver.exampleConfig
        (Driver.driverRun Driver.exampleConfig [])).timeprop_current_time_secs
      = (Driver.driverRun Driver.exampleConfig []).timeprop_current_time_secs + 1 :=
  ((Driver.spec_C9 Driver.exampleConfig (by decide) (by decide)).1
    (Driver.driverRun Driver.exampleConfig [])).1

theorem spec_C10_witness :
    ((Driver.driverRun Driver.exampleConfig
        [Driver.Event.command 0 (1 / 2)]).timeprops
          ⟨0, by decide⟩).lastPowerUpdateTime = 0 :=
  (Driver.spec_C10 Driver.exampleConfig).2.2.2.2.2.2 [] 0 (1 / 2) (by decide)

end Witnesses
